import Mathlib

/-!
Verification development for the metal-prices dashboard (`app.py`).

The repository is a single Streamlit application.  Its core logic — the
price store, the fixed-cell spreadsheet importer, the price-history log,
the chart series, the CSV export and the portfolio calculator — is embedded
below as pure Lean functions, translated statement-by-statement from
`app.py`.  Numeric cell contents and prices (Python floats) are modelled as
rationals; calendar dates are modelled as natural numbers ordered as dates
are.
-/

namespace MetalDashboard

/-- The closed set of metal identifiers used throughout `app.py`
(the dictionary keys of `metal_prices` and `portfolio_holdings`). -/
inductive Metal
  | gold
  | silver
  | platinum
  | palladium
deriving DecidableEq, Repr

/-- A mapping with one value per metal, modelling the four-key Python
dictionaries (`metal_prices`, `portfolio_holdings`) of `app.py`. -/
structure MetalMap (α : Type) where
  gold : α
  silver : α
  platinum : α
  palladium : α
deriving DecidableEq, Repr

/-- Look up a metal's entry in a `MetalMap`. -/
def MetalMap.get {α : Type} (m : MetalMap α) : Metal → α
  | .gold => m.gold
  | .silver => m.silver
  | .platinum => m.platinum
  | .palladium => m.palladium

/-- The price store: one current price per metal
(`st.session_state.metal_prices`). -/
abbrev Prices := MetalMap ℚ

/-- The portfolio holdings: one quantity per metal
(`st.session_state.portfolio_holdings`). -/
abbrev Holdings := MetalMap ℚ

/-- The map of staged prices produced by the importer: the Python `prices`
dictionary of `load_prices_from_excel`, which holds an entry for a metal
only when the corresponding cell was non-empty. -/
abbrev StagedPrices := MetalMap (Option ℚ)

/-- The seeded default prices (`initialize_session_state`, lines 101-106,
and the reset button, lines 318-323 of `app.py`). -/
def defaultPrices : Prices :=
  { gold := 2000, silver := 25, platinum := 950, palladium := 1800 }

/-- One spreadsheet cell as seen by `load_prices_from_excel`:
`empty` is a cell for which `pd.notna` is false (missing value);
`num v` is a non-empty cell whose `float(...)` coercion succeeds with
value `v` (numbers, and numeric strings); `bad s` is a non-empty cell
whose `float(...)` coercion raises an exception whose text is `s`
(non-numeric content). -/
inductive Cell
  | empty
  | num (v : ℚ)
  | bad (s : String)
deriving DecidableEq, Repr

/-- A parsed spreadsheet table (the pandas `DataFrame` returned by
`pd.read_excel(..., header=None)`): a shape and a cell grid, addressed
0-based as `df.iloc[row, col]`. -/
structure Sheet where
  nrows : ℕ
  ncols : ℕ
  cell : ℕ → ℕ → Cell

/-- The value a cell contributes to the staged map: `none` when the cell
is empty (skipped), its numeric value otherwise.  `bad` cells never reach
this point; their junk value here is irrelevant. -/
def cellVal : Cell → Option ℚ
  | .empty => none
  | .num v => some v
  | .bad _ => none

/-- One `if pd.notna(...): prices[m] = float(...)` step of
`load_prices_from_excel`: an empty cell is skipped, a numeric cell is
staged, a non-numeric cell raises (modelled as `Except.error` with the
exception text). -/
def readCell : Cell → Except String (Option ℚ)
  | .empty => .ok none
  | .num v => .ok (some v)
  | .bad s => .error s

/-- The four sequential cell reads of `load_prices_from_excel`
(lines 134-150 of `app.py`): D4 is row 3 col 3, D5 row 4, D6 row 5,
D7 row 6 in 0-based addressing; the first raising cell aborts the whole
sequence and any earlier staged value is discarded. -/
def stageAll (df : Sheet) : Except String StagedPrices :=
  match readCell (df.cell 3 3) with
  | .error e => .error e
  | .ok g =>
    match readCell (df.cell 4 3) with
    | .error e => .error e
    | .ok s =>
      match readCell (df.cell 5 3) with
      | .error e => .error e
      | .ok p =>
        match readCell (df.cell 6 3) with
        | .error e => .error e
        | .ok d => .ok { gold := g, silver := s, platinum := p, palladium := d }

/-- `load_prices_from_excel` (lines 125-157 of `app.py`) on an
already-parsed table: the shape guard (`df.shape[0] >= 7 and
df.shape[1] >= 4`), then the four cell reads; any exception is caught
and turned into the `Error reading Excel file: ...` message, and a too
small sheet yields the fixed layout message.  The Python function returns
the pair `(prices, error)`. -/
def load_prices_from_excel (df : Sheet) : Option StagedPrices × Option String :=
  if 7 ≤ df.nrows ∧ 4 ≤ df.ncols then
    match stageAll df with
    | .ok m => (some m, none)
    | .error e => (none, some ("Error reading Excel file: " ++ e))
  else
    (none, some "Excel file doesn\x27t have enough rows/columns to read from D4:D7")

/-- Whether the staged map is the empty Python dictionary (no cell was
non-empty); an empty dictionary is falsy, so `if prices:` skips it. -/
def StagedPrices.isEmpty (m : StagedPrices) : Bool :=
  m.gold.isNone && m.silver.isNone && m.platinum.isNone && m.palladium.isNone

/-- `st.session_state.metal_prices.update(prices)`: every staged metal is
overwritten, every metal absent from the staged map keeps its stored
value. -/
def mergePrices (store : Prices) (m : StagedPrices) : Prices :=
  { gold := m.gold.getD store.gold
    silver := m.silver.getD store.silver
    platinum := m.platinum.getD store.platinum
    palladium := m.palladium.getD store.palladium }

/-- The caller side of the import (lines 292-305 of `app.py`): run the
file importer and, only when it returned a truthy (non-empty) price
dictionary, merge it into the store; on `None` (any error) or on an empty
dictionary the store is untouched. -/
def applyImport (store : Prices) (df : Sheet) : Prices :=
  match (load_prices_from_excel df).1 with
  | some m => if m.isEmpty then store else mergePrices store m
  | none => store

/-- One row of the price-history table
(`st.session_state.price_history`): a calendar date and the four prices. -/
structure HistoryRow where
  date : ℕ
  prices : Prices
deriving DecidableEq, Repr

/-- The seeding of the history log at session start
(`initialize_session_state`, lines 108-115 of `app.py`): exactly one row
for today with the current prices. -/
def initHistory (today : ℕ) (current : Prices) : List HistoryRow :=
  [{ date := today, prices := current }]

/-- `update_price_history` (lines 159-178 of `app.py`), with the date as
an explicit parameter (the code always passes today's date): if the date
is absent from the `date` column, append a new row; otherwise overwrite
the four price fields of every row matching that date. -/
def update_price_history (log : List HistoryRow) (today : ℕ) (current : Prices) :
    List HistoryRow :=
  if today ∈ log.map HistoryRow.date then
    log.map (fun r => if r.date = today then { date := today, prices := current } else r)
  else
    log ++ [{ date := today, prices := current }]

/-- The clear-history button (lines 327-336 of `app.py`): discard all
rows and reseed with one row for today holding the current prices. -/
def clearHistory (today : ℕ) (current : Prices) : List HistoryRow :=
  [{ date := today, prices := current }]

/-- The row sequence consumed by `create_price_chart` (lines 182-183 of
`app.py`): a copy of the history sorted ascending by date
(`df.sort_values('date')`); the log itself is not modified. -/
def asSeries (log : List HistoryRow) : List HistoryRow :=
  log.insertionSort (fun a b => a.date ≤ b.date)

/-- Every history-log state reachable by the program's operations:
session-start seeding, any number of snapshots, and clearing. -/
inductive ReachableLog : List HistoryRow → Prop
  | init (today : ℕ) (current : Prices) : ReachableLog (initHistory today current)
  | snap {log : List HistoryRow} (today : ℕ) (current : Prices) :
      ReachableLog log → ReachableLog (update_price_history log today current)
  | wipe {log : List HistoryRow} (today : ℕ) (current : Prices) :
      ReachableLog log → ReachableLog (clearHistory today current)

/-- The one-row-per-date invariant: all rows carry pairwise distinct
dates. -/
def DistinctDates (log : List HistoryRow) : Prop :=
  log.Pairwise (fun a b => a.date ≠ b.date)

/-- One display line of the portfolio breakdown (the dictionary appended
in `calculate_portfolio_value`, lines 247-252 of `app.py`): the
capitalized metal name, the holding, the price and the value. -/
structure PortfolioLine where
  metal : String
  holding : ℚ
  price : ℚ
  value : ℚ
deriving DecidableEq, Repr

/-- `metal.capitalize()` for the four metal keys. -/
def Metal.displayName : Metal → String
  | .gold => "Gold"
  | .silver => "Silver"
  | .platinum => "Platinum"
  | .palladium => "Palladium"

/-- The canonical metal order used by every loop in `app.py`. -/
def metalOrder : List Metal := [.gold, .silver, .platinum, .palladium]

/-- `calculate_portfolio_value` (lines 232-254 of `app.py`): loop over the
four metals in canonical order, accumulate `holding * price` into the
total, and append a breakdown line exactly when `holding > 0`. -/
def calculate_portfolio_value (holdings : Holdings) (prices : Prices) :
    ℚ × List PortfolioLine :=
  metalOrder.foldl
    (fun acc metal =>
      let holding := holdings.get metal
      let price := prices.get metal
      let value := holding * price
      (acc.1 + value,
        acc.2 ++ if 0 < holding then
          [{ metal := metal.displayName, holding := holding, price := price, value := value }]
        else []))
    (0, [])

/-- The decimal digit character of `n % 10`, used to model Python's plain
decimal number formatting. -/
def digitChar10 (n : ℕ) : Char :=
  match n % 10 with
  | 0 => '0'
  | 1 => '1'
  | 2 => '2'
  | 3 => '3'
  | 4 => '4'
  | 5 => '5'
  | 6 => '6'
  | 7 => '7'
  | 8 => '8'
  | _ => '9'

/-- The decimal digits of a natural number, most significant first
(empty for 0); the first argument is fuel, one unit per digit. -/
def natDecimalAux : ℕ → ℕ → List Char
  | 0, _ => []
  | fuel + 1, n => if n = 0 then [] else natDecimalAux fuel (n / 10) ++ [digitChar10 n]

/-- Plain decimal rendering of a natural number (`n` itself is more than
enough fuel: a number has at most as many digits as its value). -/
def natDecimal (n : ℕ) : String :=
  if n = 0 then "0" else String.mk (natDecimalAux n n)

/-- Up to `fuel` decimal digits of the fraction `r / d` (`r < d`), by long
division; stops early when the remainder reaches zero. -/
def fracDigits : ℕ → ℕ → ℕ → List Char
  | 0, _, _ => []
  | fuel + 1, r, d => if r = 0 then [] else
      digitChar10 (r * 10 / d) :: fracDigits fuel (r * 10 % d) d

/-- Plain decimal rendering of a rational, modelling pandas' formatting of
a float in `to_csv`: optional minus sign, integer part, a decimal point
and the fraction digits (`.0` when the value is integral).  Python floats
have finite decimal expansions; 30 digits cover every value the model
renders exactly. -/
def renderRat (q : ℚ) : String :=
  let n := q.num.natAbs
  let sign := if q < 0 then "-" else ""
  let frac := fracDigits 30 (n % q.den) q.den
  sign ++ natDecimal (n / q.den) ++ "." ++
    (if frac.isEmpty then "0" else String.mk frac)

/-- One serialized row of `price_history.to_csv(index=False)`: the date
field followed by the four price fields, in column order. -/
def rowFields (r : HistoryRow) : List String :=
  [natDecimal r.date, renderRat r.prices.gold, renderRat r.prices.silver,
    renderRat r.prices.platinum, renderRat r.prices.palladium]

/-- The CSV header of the history table: its column names in order. -/
def csvHeader : List String := ["date", "gold", "silver", "platinum", "palladium"]

/-- `st.session_state.price_history.to_csv(index=False)` (line 508 of
`app.py`), at field granularity: the header line, then one line per row
of the table in its current (insertion) order — `to_csv` performs no
sorting. -/
def to_csv (log : List HistoryRow) : List (List String) :=
  csvHeader :: log.map rowFields

/-- The non-negativity invariant on the price store claimed by the spec. -/
def NonnegPrices (p : Prices) : Prop :=
  0 ≤ p.gold ∧ 0 ≤ p.silver ∧ 0 ≤ p.platinum ∧ 0 ≤ p.palladium

/-- The manual-edit write-back of the four price inputs (lines 406-409 of
`app.py`); the widgets constrain each entered value to at least `0.01`
(`min_value=0.01`), which theorems state as a hypothesis. -/
def setPrices (g s p d : ℚ) : Prices :=
  { gold := g, silver := s, platinum := p, palladium := d }

/-- Fixture: a large-enough sheet whose D5 cell is non-numeric and whose
other cells are empty. -/
def exParseSheet : Sheet :=
  ⟨9, 6, fun i j => if i = 4 ∧ j = 3 then Cell.bad "could not convert string to float" else
    Cell.empty⟩

/-- Fixture: a sheet with only 5 rows. -/
def exSmallSheet : Sheet := ⟨5, 4, fun _ _ => Cell.empty⟩

/-- Fixture: a large-enough sheet with D4 = 2500 and D6 = 1000, D5 and D7
empty. -/
def exMixedSheet : Sheet :=
  ⟨7, 4, fun i j =>
    if i = 3 ∧ j = 3 then Cell.num 2500
    else if i = 5 ∧ j = 3 then Cell.num 1000
    else Cell.empty⟩

/-- Fixture: a large-enough sheet whose D4 cell holds the numeric value
-1 and whose other cells are empty. -/
def exNegSheet : Sheet :=
  ⟨7, 4, fun i j => if i = 3 ∧ j = 3 then Cell.num (-1) else Cell.empty⟩

/-- Fixture: a large-enough sheet with every cell empty. -/
def exEmptySheet : Sheet := ⟨7, 4, fun _ _ => Cell.empty⟩

/-- Fixture: a reachable history log whose rows are not in ascending date
order — clear on date 5, then snapshot on the earlier date 3. -/
def exOutOfOrderLog : List HistoryRow :=
  update_price_history (clearHistory 5 defaultPrices) 3 ⟨1, 2, 3, 4⟩

/-- Fixture: a history log whose rows are already ascending by date. -/
def exAscendingLog : List HistoryRow :=
  [⟨1, defaultPrices⟩, ⟨2, ⟨1, 2, 3, 4⟩⟩]

/-- If any of the four target cells is non-numeric, the staging sequence
aborts with the first failing cell's cause. -/
theorem stageAll_error {df : Sheet}
    (hbad : (∃ s, df.cell 3 3 = Cell.bad s) ∨ (∃ s, df.cell 4 3 = Cell.bad s) ∨
      (∃ s, df.cell 5 3 = Cell.bad s) ∨ (∃ s, df.cell 6 3 = Cell.bad s)) :
    ∃ c, stageAll df = .error c := by
  unfold stageAll
  cases h3 : df.cell 3 3 <;> first | (rename_i s; exact ⟨s, by simp [readCell]⟩) | skip
  all_goals (cases h4 : df.cell 4 3 <;> first | (rename_i s; exact ⟨s, by simp [readCell]⟩) | skip)
  all_goals (cases h5 : df.cell 5 3 <;> first | (rename_i s; exact ⟨s, by simp [readCell]⟩) | skip)
  all_goals (cases h6 : df.cell 6 3 <;> first | (rename_i s; exact ⟨s, by simp [readCell]⟩) | skip)
  all_goals simp [h3, h4, h5, h6] at hbad

/-- If none of the four target cells is non-numeric, staging succeeds and
stages exactly the values of the non-empty cells. -/
theorem stageAll_eq_ok {df : Sheet}
    (hg : ∀ s, df.cell 3 3 ≠ Cell.bad s) (hs : ∀ s, df.cell 4 3 ≠ Cell.bad s)
    (hp : ∀ s, df.cell 5 3 ≠ Cell.bad s) (hd : ∀ s, df.cell 6 3 ≠ Cell.bad s) :
    stageAll df = .ok ⟨cellVal (df.cell 3 3), cellVal (df.cell 4 3),
      cellVal (df.cell 5 3), cellVal (df.cell 6 3)⟩ := by
  unfold stageAll
  cases h3 : df.cell 3 3 <;> first | exact absurd h3 (hg _) | skip
  all_goals (cases h4 : df.cell 4 3 <;> first | exact absurd h4 (hs _) | skip)
  all_goals (cases h5 : df.cell 5 3 <;> first | exact absurd h5 (hp _) | skip)
  all_goals (cases h6 : df.cell 6 3 <;> first | exact absurd h6 (hd _) | skip)
  all_goals simp [readCell, cellVal]

/-- Whenever staging succeeds, the staged entries are exactly the values
of the four target cells. -/
theorem stageAll_ok_fields {df : Sheet} {m : StagedPrices} (h : stageAll df = .ok m) :
    m = ⟨cellVal (df.cell 3 3), cellVal (df.cell 4 3), cellVal (df.cell 5 3),
      cellVal (df.cell 6 3)⟩ := by
  unfold stageAll at h
  cases h3 : df.cell 3 3 <;> rw [h3] at h <;> simp only [readCell] at h <;>
    first | exact absurd h (fun hh => Except.noConfusion hh) | skip
  all_goals (cases h4 : df.cell 4 3 <;> rw [h4] at h <;> simp only [readCell] at h <;>
    first | exact absurd h (fun hh => Except.noConfusion hh) | skip)
  all_goals (cases h5 : df.cell 5 3 <;> rw [h5] at h <;> simp only [readCell] at h <;>
    first | exact absurd h (fun hh => Except.noConfusion hh) | skip)
  all_goals (cases h6 : df.cell 6 3 <;> rw [h6] at h <;> simp only [readCell] at h <;>
    first | exact absurd h (fun hh => Except.noConfusion hh) | skip)
  all_goals (simp at h; simp [cellVal, ← h])

/-- A successful importer result comes from a successful staging pass on
a large-enough sheet. -/
theorem load_fst_eq_some {df : Sheet} {m : StagedPrices}
    (h : (load_prices_from_excel df).1 = some m) :
    stageAll df = .ok m ∧ 7 ≤ df.nrows ∧ 4 ≤ df.ncols := by
  unfold load_prices_from_excel at h
  split at h
  · rename_i hshape
    split at h
    · rename_i hok; simp at h; subst h; exact ⟨hok, hshape⟩
    · simp at h
  · simp at h

/-- The in-place replacement performed by a snapshot never changes a
row's date. -/
theorem replace_date (r : HistoryRow) (d : ℕ) (P : Prices) :
    (if r.date = d then ({ date := d, prices := P } : HistoryRow) else r).date = r.date := by
  split <;> simp_all

/-- A snapshot preserves pairwise-distinct dates. -/
theorem snap_distinct {log : List HistoryRow} (d : ℕ) (P : Prices)
    (h : DistinctDates log) : DistinctDates (update_price_history log d P) := by
  unfold update_price_history
  split
  · exact List.Pairwise.map _ (fun a b hab => by simpa [replace_date] using hab) h
  · rename_i hmem
    unfold DistinctDates at h ⊢
    rw [List.pairwise_append]
    refine ⟨h, by simp, ?_⟩
    intro a ha b hb
    simp at hb
    subst hb
    simp
    intro had
    exact hmem (by rw [← had]; exact List.mem_map_of_mem HistoryRow.date ha)

/-- Every log the program can reach has pairwise-distinct dates. -/
theorem reachable_distinct {log : List HistoryRow} (h : ReachableLog log) :
    DistinctDates log := by
  induction h with
  | init today current => simp [DistinctDates, initHistory]
  | snap today current _ ih => exact snap_distinct today current ih
  | wipe today current _ _ => simp [DistinctDates, clearHistory]

/-- In a log with distinct dates, filtering on a date that occurs yields
exactly one row. -/
theorem filter_single {log : List HistoryRow} {d : ℕ} (hd : DistinctDates log)
    (hmem : d ∈ log.map HistoryRow.date) :
    ∃ r : HistoryRow, r.date = d ∧ log.filter (fun r => r.date == d) = [r] := by
  induction log with
  | nil => simp at hmem
  | cons a l ih =>
    rw [DistinctDates, List.pairwise_cons] at hd
    by_cases ha : a.date = d
    · refine ⟨a, ha, ?_⟩
      rw [List.filter_cons_of_pos (by simp [ha])]
      rw [List.filter_eq_nil_iff.2]
      intro r hr
      simp
      intro hrd
      exact hd.1 r hr (by rw [ha, hrd])
    · simp at hmem
      rcases hmem with h | h
      · exact absurd h.symm ha
      · obtain ⟨r, hr1, hr2⟩ := ih hd.2 (by simpa using h)
        exact ⟨r, hr1, by rw [List.filter_cons_of_neg (by simp [ha]), hr2]⟩

/-- After a snapshot on a distinct-date log, the snapshotted date carries
exactly one row holding the snapshotted prices. -/
theorem snap_filter_self {log : List HistoryRow} (d : ℕ) (P : Prices)
    (h : DistinctDates log) :
    (update_price_history log d P).filter (fun r => r.date == d) =
      [{ date := d, prices := P }] := by
  unfold update_price_history
  split
  · rename_i hmem
    rw [List.filter_map]
    obtain ⟨r0, hr0, hfil⟩ := filter_single h hmem
    have heq : (List.filter ((fun r => r.date == d) ∘ fun r =>
        if r.date = d then ({ date := d, prices := P } : HistoryRow) else r) log) =
        List.filter (fun r => r.date == d) log := by
      apply List.filter_congr
      intro r _
      simp [Function.comp, replace_date]
    rw [heq, hfil]
    simp [hr0]
  · rename_i hmem
    rw [List.filter_append]
    rw [List.filter_eq_nil_iff.2, List.nil_append]
    · simp
    · intro r hr
      simp
      intro hrd
      exact hmem (by rw [← hrd]; exact List.mem_map_of_mem HistoryRow.date hr)

/-- Two consecutive snapshots on the same date collapse to the later
one. -/
theorem snap_snap (log : List HistoryRow) (d : ℕ) (P1 P2 : Prices) :
    update_price_history (update_price_history log d P1) d P2 =
      update_price_history log d P2 := by
  unfold update_price_history
  by_cases hmem : d ∈ log.map HistoryRow.date
  · rw [if_pos hmem, if_pos, if_pos hmem]
    · rw [List.map_map]
      apply List.map_congr_left
      intro r _
      simp [Function.comp]
      split <;> simp_all
    · simpa [List.map_map, Function.comp, replace_date] using hmem
  · rw [if_neg hmem, if_pos, if_neg hmem]
    · rw [List.map_append]
      congr 1
      · refine (List.map_congr_left ?_).trans (List.map_id _)
        intro r hr
        have hne : r.date ≠ d := fun hrd =>
          hmem (by rw [← hrd]; exact List.mem_map_of_mem HistoryRow.date hr)
        simp [hne]
      · simp
    · simp

/-- Each decimal digit character is neither a dollar sign nor a comma. -/
theorem digitChar10_ne (n : ℕ) : digitChar10 n ≠ '$' ∧ digitChar10 n ≠ ',' := by
  rcases (show n % 10 = 0 ∨ n % 10 = 1 ∨ n % 10 = 2 ∨ n % 10 = 3 ∨ n % 10 = 4 ∨ n % 10 = 5 ∨
      n % 10 = 6 ∨ n % 10 = 7 ∨ n % 10 = 8 ∨ n % 10 = 9 by omega) with
    h|h|h|h|h|h|h|h|h|h <;> simp [digitChar10, h]

/-- The integer-part digit run contains no dollar sign and no comma. -/
theorem natDecimalAux_ne (fuel n : ℕ) :
    ∀ c ∈ natDecimalAux fuel n, c ≠ '$' ∧ c ≠ ',' := by
  induction fuel generalizing n with
  | zero => simp [natDecimalAux]
  | succ k ih =>
    intro c hc
    rw [natDecimalAux] at hc
    split at hc
    · simp at hc
    · rcases List.mem_append.1 hc with h | h
      · exact ih _ c h
      · simp at h
        subst h
        exact digitChar10_ne _

/-- The fraction digit run contains no dollar sign and no comma. -/
theorem fracDigits_ne (fuel : ℕ) :
    ∀ (r d : ℕ), ∀ c ∈ fracDigits fuel r d, c ≠ '$' ∧ c ≠ ',' := by
  induction fuel with
  | zero => simp [fracDigits]
  | succ k ih =>
    intro r d c hc
    rw [fracDigits] at hc
    split at hc
    · simp at hc
    · rcases List.mem_cons.1 hc with h | h
      · subst h; exact digitChar10_ne _
      · exact ih _ _ c h

/-- The rendering of a natural number contains no dollar sign and no
comma. -/
theorem natDecimal_ne (n : ℕ) : ∀ c ∈ (natDecimal n).data, c ≠ '$' ∧ c ≠ ',' := by
  unfold natDecimal
  split
  · intro c hc; simp [String.data] at hc; subst hc; decide
  · exact natDecimalAux_ne n n

/-- The plain decimal rendering of a rational uses only a sign, digits
and a decimal point: never a dollar sign or a comma. -/
theorem renderRat_chars (q : ℚ) : ∀ c ∈ (renderRat q).data, c ≠ '$' ∧ c ≠ ',' := by
  unfold renderRat
  intro c hc
  simp only [String.data_append] at hc
  rcases List.mem_append.1 hc with h | h
  · rcases List.mem_append.1 h with h' | h'
    · rcases List.mem_append.1 h' with h'' | h''
      · revert h''
        split <;> intro h''
        · simp only [show ("-" : String).data = ['-'] from rfl] at h''
          simp at h''
          simp [h'']
        · simp only [show ("" : String).data = ([] : List Char) from rfl] at h''
          simp at h''
      · exact natDecimal_ne _ c h''
    · simp at h'
      simp [h']
  · revert h
    split <;> intro h
    · simp only [show ("0" : String).data = ['0'] from rfl] at h
      simp at h
      simp [h]
    · exact fracDigits_ne 30 _ _ c h

/-- The general shape of `calculate_portfolio_value`: the total is the
four-term sum of holding times price, and the breakdown lists, in
canonical order, one line per metal with a strictly positive holding. -/
theorem portfolio_general (holdings : Holdings) (prices : Prices) :
    (calculate_portfolio_value holdings prices).1 =
        holdings.gold * prices.gold + holdings.silver * prices.silver +
        holdings.platinum * prices.platinum + holdings.palladium * prices.palladium
      ∧ (calculate_portfolio_value holdings prices).2 =
          (metalOrder.filter (fun m => decide (0 < holdings.get m))).map
            (fun m => { metal := m.displayName, holding := holdings.get m,
                        price := prices.get m, value := holdings.get m * prices.get m }) := by
  constructor
  · simp only [calculate_portfolio_value, metalOrder, List.foldl, MetalMap.get]
    ring
  · simp only [calculate_portfolio_value, metalOrder, List.foldl, MetalMap.get, List.filter]
    by_cases hg : 0 < holdings.gold <;> by_cases hs : 0 < holdings.silver <;>
      by_cases hp : 0 < holdings.platinum <;> by_cases hd : 0 < holdings.palladium <;>
      simp [hg, hs, hp, hd, MetalMap.get]

/-- Claim C1: on a large-enough sheet with a non-numeric target cell,
the import fails with the parse-error message carrying the underlying cause,
returns no price map, and the caller leaves the price store exactly as it
was (atomic all-or-nothing). -/
theorem parse_failure_is_atomic (df : Sheet) (store : Prices)
    (h7 : 7 ≤ df.nrows) (h4 : 4 ≤ df.ncols)
    (hbad : ∃ i, i ∈ [3, 4, 5, 6] ∧ ∃ s, df.cell i 3 = Cell.bad s) :
    (∃ c, load_prices_from_excel df = (none, some ("Error reading Excel file: " ++ c)))
      ∧ applyImport store df = store := by
  have hb : (∃ s, df.cell 3 3 = Cell.bad s) ∨ (∃ s, df.cell 4 3 = Cell.bad s) ∨
      (∃ s, df.cell 5 3 = Cell.bad s) ∨ (∃ s, df.cell 6 3 = Cell.bad s) := by
    obtain ⟨i, hi, s, hs⟩ := hbad
    simp only [List.mem_cons, List.mem_singleton] at hi
    rcases hi with rfl | rfl | rfl | rfl | h
    · exact Or.inl ⟨s, hs⟩
    · exact Or.inr (Or.inl ⟨s, hs⟩)
    · exact Or.inr (Or.inr (Or.inl ⟨s, hs⟩))
    · exact Or.inr (Or.inr (Or.inr ⟨s, hs⟩))
    · simp at h
  obtain ⟨c, hc⟩ := stageAll_error hb
  refine ⟨⟨c, ?_⟩, ?_⟩
  · simp [load_prices_from_excel, h7, h4, hc]
  · simp [applyImport, load_prices_from_excel, h7, h4, hc]

/-- Witness for C1: the concrete sheet whose D5 cell is non-numeric. -/
theorem parse_failure_is_atomic_witness :
    (∃ c, load_prices_from_excel exParseSheet =
        (none, some ("Error reading Excel file: " ++ c)))
      ∧ applyImport defaultPrices exParseSheet = defaultPrices :=
  parse_failure_is_atomic exParseSheet defaultPrices (by decide) (by decide)
    ⟨4, by decide, "could not convert string to float", by decide⟩

/-- Claim C2: the portfolio total is the four-term sum of holding times
price, the breakdown holds exactly one line per metal with a strictly
positive holding in canonical order, and the spec's concrete example
evaluates to total 4950 with exactly the gold and platinum lines. -/
theorem portfolio_value_spec :
    (∀ (holdings : Holdings) (prices : Prices),
      (calculate_portfolio_value holdings prices).1 =
          holdings.gold * prices.gold + holdings.silver * prices.silver +
          holdings.platinum * prices.platinum + holdings.palladium * prices.palladium
        ∧ (calculate_portfolio_value holdings prices).2 =
            (metalOrder.filter (fun m => decide (0 < holdings.get m))).map
              (fun m => { metal := m.displayName, holding := holdings.get m,
                          price := prices.get m, value := holdings.get m * prices.get m }))
    ∧ calculate_portfolio_value ⟨2, 0, 1, 0⟩ ⟨2000, 25, 950, 1800⟩ =
        (4950, [⟨"Gold", 2, 2000, 4000⟩, ⟨"Platinum", 1, 950, 950⟩]) := by
  refine ⟨portfolio_general, ?_⟩
  simp [calculate_portfolio_value, metalOrder, MetalMap.get, Metal.displayName]
  norm_num

/-- Claim C3 (counterexample): a reachable history log whose rows are not
in ascending date order is exported by `to_csv` in insertion order [5, 3],
not sorted ascending — the export does not re-sort. -/
theorem export_unsorted_counterexample :
    ReachableLog exOutOfOrderLog
    ∧ exOutOfOrderLog.map HistoryRow.date = [5, 3]
    ∧ to_csv exOutOfOrderLog ≠ csvHeader :: (asSeries exOutOfOrderLog).map rowFields := by
  refine ⟨?_, by decide, by decide⟩
  exact ReachableLog.snap 3 ⟨1, 2, 3, 4⟩
    (ReachableLog.wipe 5 defaultPrices (ReachableLog.init 0 defaultPrices))

/-- Claim C3 (amended): the export serializes the header
`date,gold,silver,platinum,palladium` and then every row in the log's
current insertion order (not re-sorted), with plain decimal numeric
fields free of currency symbols and thousands separators; whenever the
log's rows are already ascending by date, the output coincides with the
ascending-by-date serialization. -/
theorem export_insertion_order :
    (∀ log : List HistoryRow, to_csv log = csvHeader :: log.map rowFields)
    ∧ csvHeader = ["date", "gold", "silver", "platinum", "palladium"]
    ∧ (∀ q : ℚ, '$' ∉ (renderRat q).data ∧ ',' ∉ (renderRat q).data)
    ∧ (∀ log : List HistoryRow, log.Pairwise (fun a b => a.date ≤ b.date) →
        to_csv log = csvHeader :: (asSeries log).map rowFields) := by
  refine ⟨fun log => rfl, rfl, ?_, ?_⟩
  · intro q
    exact ⟨fun h => (renderRat_chars q _ h).1 rfl, fun h => (renderRat_chars q _ h).2 rfl⟩
  · intro log hsorted
    have heq : asSeries log = log := List.Sorted.insertionSort_eq hsorted
    rw [asSeries] at heq
    simp [to_csv, asSeries, heq]

/-- Witness for the amended C3: a concrete ascending log, whose export
equals the ascending serialization. -/
theorem export_insertion_order_witness :
    exAscendingLog.Pairwise (fun a b => a.date ≤ b.date)
    ∧ to_csv exAscendingLog = csvHeader :: (asSeries exAscendingLog).map rowFields :=
  ⟨by simp [exAscendingLog], export_insertion_order.2.2.2 exAscendingLog
    (by simp [exAscendingLog])⟩

/-- Claim C4: on any reachable log, snapshotting the same date twice with
the same prices leaves exactly one row for that date holding those prices
(idempotence); snapshotting with P1 then P2 leaves exactly one row for
that date holding P2 (last-write-wins), and the double snapshot collapses
to the single later snapshot. -/
theorem snapshot_idempotent_last_write_wins (log : List HistoryRow) (d : ℕ)
    (P P1 P2 : Prices) (hlog : ReachableLog log) :
    (update_price_history (update_price_history log d P) d P).filter
        (fun r => r.date == d) = [{ date := d, prices := P }]
    ∧ (update_price_history (update_price_history log d P1) d P2).filter
        (fun r => r.date == d) = [{ date := d, prices := P2 }]
    ∧ update_price_history (update_price_history log d P1) d P2 =
        update_price_history log d P2 := by
  have hd := reachable_distinct hlog
  exact ⟨snap_filter_self d P (snap_distinct d P hd),
    snap_filter_self d P2 (snap_distinct d P1 hd), snap_snap log d P1 P2⟩

/-- Witness for C4 at a concrete seeded log and date. -/
theorem snapshot_idempotent_last_write_wins_witness :
    (update_price_history (update_price_history (initHistory 0 defaultPrices) 1
        ⟨1, 1, 1, 1⟩) 1 ⟨1, 1, 1, 1⟩).filter (fun r => r.date == 1) =
      [{ date := 1, prices := ⟨1, 1, 1, 1⟩ }]
    ∧ (update_price_history (update_price_history (initHistory 0 defaultPrices) 1
        ⟨1, 1, 1, 1⟩) 1 ⟨2, 2, 2, 2⟩).filter (fun r => r.date == 1) =
      [{ date := 1, prices := ⟨2, 2, 2, 2⟩ }]
    ∧ update_price_history (update_price_history (initHistory 0 defaultPrices) 1
        ⟨1, 1, 1, 1⟩) 1 ⟨2, 2, 2, 2⟩ =
      update_price_history (initHistory 0 defaultPrices) 1 ⟨2, 2, 2, 2⟩ :=
  snapshot_idempotent_last_write_wins (initHistory 0 defaultPrices) 1
    ⟨1, 1, 1, 1⟩ ⟨1, 1, 1, 1⟩ ⟨2, 2, 2, 2⟩ (ReachableLog.init 0 defaultPrices)

/-- Claim C5: on a sheet with fewer than 7 rows or fewer than 4 columns,
the import fails with the fixed layout message, returns no price map, and
the caller leaves the price store exactly as it was. -/
theorem layout_failure_is_atomic (df : Sheet) (store : Prices)
    (h : df.nrows < 7 ∨ df.ncols < 4) :
    load_prices_from_excel df =
        (none, some "Excel file doesn\x27t have enough rows/columns to read from D4:D7")
      ∧ applyImport store df = store := by
  have hcond : ¬ (7 ≤ df.nrows ∧ 4 ≤ df.ncols) := by omega
  constructor
  · simp [load_prices_from_excel, hcond]
  · simp [applyImport, load_prices_from_excel, hcond]

/-- Witness for C5: the concrete 5-row sheet. -/
theorem layout_failure_is_atomic_witness :
    load_prices_from_excel exSmallSheet =
        (none, some "Excel file doesn\x27t have enough rows/columns to read from D4:D7")
      ∧ applyImport defaultPrices exSmallSheet = defaultPrices :=
  layout_failure_is_atomic exSmallSheet defaultPrices (Or.inl (by decide))

/-- Claim C6: on a large-enough sheet whose four target cells are each
empty or numeric, the import succeeds with no error and returns exactly
the staged values of the non-empty cells; each empty cell is skipped and
the caller's merge leaves that metal's stored price untouched. -/
theorem good_cells_import_merge (df : Sheet) (h7 : 7 ≤ df.nrows) (h4 : 4 ≤ df.ncols)
    (hg : ∀ s, df.cell 3 3 ≠ Cell.bad s) (hs : ∀ s, df.cell 4 3 ≠ Cell.bad s)
    (hp : ∀ s, df.cell 5 3 ≠ Cell.bad s) (hd : ∀ s, df.cell 6 3 ≠ Cell.bad s) :
    load_prices_from_excel df =
        (some ⟨cellVal (df.cell 3 3), cellVal (df.cell 4 3), cellVal (df.cell 5 3),
          cellVal (df.cell 6 3)⟩, none)
      ∧ ∀ store : Prices,
          (df.cell 3 3 = Cell.empty → (applyImport store df).gold = store.gold) ∧
          (df.cell 4 3 = Cell.empty → (applyImport store df).silver = store.silver) ∧
          (df.cell 5 3 = Cell.empty → (applyImport store df).platinum = store.platinum) ∧
          (df.cell 6 3 = Cell.empty → (applyImport store df).palladium = store.palladium) := by
  have hok := stageAll_eq_ok hg hs hp hd
  have hload : load_prices_from_excel df =
      (some ⟨cellVal (df.cell 3 3), cellVal (df.cell 4 3), cellVal (df.cell 5 3),
        cellVal (df.cell 6 3)⟩, none) := by
    simp [load_prices_from_excel, h7, h4, hok]
  refine ⟨hload, fun store => ⟨?_, ?_, ?_, ?_⟩⟩ <;> intro he <;>
    simp [applyImport, hload, mergePrices, he, cellVal] <;>
    split <;> simp [mergePrices, he, cellVal]

/-- Witness for C6: the concrete sheet with D4 and D6 numeric, D5 and D7
empty. -/
theorem good_cells_import_merge_witness :
    load_prices_from_excel exMixedSheet =
        (some ⟨cellVal (exMixedSheet.cell 3 3), cellVal (exMixedSheet.cell 4 3),
          cellVal (exMixedSheet.cell 5 3), cellVal (exMixedSheet.cell 6 3)⟩, none)
      ∧ ∀ store : Prices,
          (exMixedSheet.cell 3 3 = Cell.empty →
            (applyImport store exMixedSheet).gold = store.gold) ∧
          (exMixedSheet.cell 4 3 = Cell.empty →
            (applyImport store exMixedSheet).silver = store.silver) ∧
          (exMixedSheet.cell 5 3 = Cell.empty →
            (applyImport store exMixedSheet).platinum = store.platinum) ∧
          (exMixedSheet.cell 6 3 = Cell.empty →
            (applyImport store exMixedSheet).palladium = store.palladium) :=
  good_cells_import_merge exMixedSheet (by decide) (by decide)
    (by intro s; simp [exMixedSheet]) (by intro s; simp [exMixedSheet])
    (by intro s; simp [exMixedSheet]) (by intro s; simp [exMixedSheet])

/-- Claim C7: the one-row-per-date invariant — the seeded log has
pairwise-distinct dates, every snapshot preserves distinctness (and on an
already-present date replaces in place, leaving the date column
unchanged rather than appending a duplicate), clear leaves exactly one
seed row, and consequently every reachable log has distinct dates. -/
theorem one_row_per_date_invariant :
    (∀ (d : ℕ) (P : Prices), DistinctDates (initHistory d P))
    ∧ (∀ (log : List HistoryRow) (d : ℕ) (P : Prices), DistinctDates log →
        DistinctDates (update_price_history log d P))
    ∧ (∀ (log : List HistoryRow) (d : ℕ) (P : Prices), d ∈ log.map HistoryRow.date →
        (update_price_history log d P).map HistoryRow.date = log.map HistoryRow.date)
    ∧ (∀ (d : ℕ) (P : Prices), clearHistory d P = [{ date := d, prices := P }]
        ∧ DistinctDates (clearHistory d P))
    ∧ (∀ log : List HistoryRow, ReachableLog log → DistinctDates log) := by
  refine ⟨fun d P => by simp [DistinctDates, initHistory], fun log d P h => snap_distinct d P h,
    ?_, fun d P => ⟨rfl, by simp [DistinctDates, clearHistory]⟩,
    fun log h => reachable_distinct h⟩
  intro log d P hmem
  unfold update_price_history
  rw [if_pos hmem, List.map_map]
  apply List.map_congr_left
  intro r _
  simp [Function.comp, replace_date]

/-- Witness for C7: the invariant applied to a concrete seeded log and a
concrete snapshot on it. -/
theorem one_row_per_date_invariant_witness :
    DistinctDates (update_price_history (initHistory 0 defaultPrices) 1 defaultPrices) :=
  one_row_per_date_invariant.2.1 (initHistory 0 defaultPrices) 1 defaultPrices
    (one_row_per_date_invariant.1 0 defaultPrices)

/-- Claim C8: on every reachable log, the chart series is strictly
ascending by date, and producing it only reorders the log's rows (it is a
permutation of them; the log itself is untouched — the embedding is
pure). -/
theorem series_strictly_ascending (log : List HistoryRow) (h : ReachableLog log) :
    ((asSeries log).map HistoryRow.date).Sorted (· < ·) ∧ (asSeries log).Perm log := by
  haveI : IsTotal HistoryRow (fun a b => a.date ≤ b.date) :=
    ⟨fun a b => Nat.le_total a.date b.date⟩
  haveI : IsTrans HistoryRow (fun a b => a.date ≤ b.date) :=
    ⟨fun _ _ _ => Nat.le_trans⟩
  have hperm : (asSeries log).Perm log := List.perm_insertionSort _ log
  refine ⟨?_, hperm⟩
  have hsorted : (asSeries log).Pairwise (fun a b => a.date ≤ b.date) :=
    List.sorted_insertionSort _ log
  have hdist : (asSeries log).Pairwise (fun a b => a.date ≠ b.date) :=
    (hperm.pairwise_iff (fun hab => hab.symm)).2 (reachable_distinct h)
  rw [List.Sorted, List.pairwise_map]
  exact (hsorted.and hdist).imp (fun hab => lt_of_le_of_ne hab.1 hab.2)

/-- Witness for C8 at a concrete reachable log built from out-of-order
snapshot dates. -/
theorem series_strictly_ascending_witness :
    ((asSeries exOutOfOrderLog).map HistoryRow.date).Sorted (· < ·)
    ∧ (asSeries exOutOfOrderLog).Perm exOutOfOrderLog :=
  series_strictly_ascending exOutOfOrderLog
    (ReachableLog.snap 3 ⟨1, 2, 3, 4⟩
      (ReachableLog.wipe 5 defaultPrices (ReachableLog.init 0 defaultPrices)))

/-- Claim C9 (counterexample): the defaults satisfy non-negativity, but
an import of a sheet whose D4 cell holds the numeric value -1 writes a
negative gold price into the store — the import merge does not preserve
the non-negativity invariant. -/
theorem import_negative_price_counterexample :
    NonnegPrices defaultPrices ∧ ¬ NonnegPrices (applyImport defaultPrices exNegSheet) :=
  ⟨⟨by decide, by decide, by decide, by decide⟩,
    fun hcon => absurd hcon.1 (by decide)⟩

/-- Claim C9 (amended): the seeded defaults are non-negative (indeed
positive), a manual edit — constrained by the input widgets to values at
least 0.01 — and the reset (which restores the defaults) preserve
non-negativity, and the import merge preserves non-negativity provided
every numeric target cell of the imported sheet is non-negative; the
code performs no sign validation of its own on import. -/
theorem price_nonnegativity_amended :
    NonnegPrices defaultPrices
    ∧ (∀ g s p d : ℚ, 1/100 ≤ g → 1/100 ≤ s → 1/100 ≤ p → 1/100 ≤ d →
        NonnegPrices (setPrices g s p d))
    ∧ (∀ (store : Prices) (df : Sheet), NonnegPrices store →
        (∀ i ∈ [3, 4, 5, 6], ∀ v : ℚ, df.cell i 3 = Cell.num v → 0 ≤ v) →
        NonnegPrices (applyImport store df)) := by
  refine ⟨⟨by decide, by decide, by decide, by decide⟩, ?_, ?_⟩
  · intro g s p d hg hs hp hd
    refine ⟨?_, ?_, ?_, ?_⟩ <;> simp only [setPrices] <;> linarith
  · intro store df hstore hcells
    cases hres : (load_prices_from_excel df).1 with
    | none => simpa [applyImport, hres] using hstore
    | some m =>
      obtain ⟨hok, -, -⟩ := load_fst_eq_some hres
      have hm := stageAll_ok_fields hok
      subst hm
      simp only [applyImport, hres]
      split
      · exact hstore
      · refine ⟨?_, ?_, ?_, ?_⟩ <;> simp only [mergePrices]
        · cases h3 : df.cell 3 3 with
          | empty => simpa [cellVal] using hstore.1
          | num v => simpa [cellVal] using hcells 3 (by decide) v h3
          | bad s => simpa [cellVal] using hstore.1
        · cases h4 : df.cell 4 3 with
          | empty => simpa [cellVal] using hstore.2.1
          | num v => simpa [cellVal] using hcells 4 (by decide) v h4
          | bad s => simpa [cellVal] using hstore.2.1
        · cases h5 : df.cell 5 3 with
          | empty => simpa [cellVal] using hstore.2.2.1
          | num v => simpa [cellVal] using hcells 5 (by decide) v h5
          | bad s => simpa [cellVal] using hstore.2.2.1
        · cases h6 : df.cell 6 3 with
          | empty => simpa [cellVal] using hstore.2.2.2
          | num v => simpa [cellVal] using hcells 6 (by decide) v h6
          | bad s => simpa [cellVal] using hstore.2.2.2

/-- Witness for the amended C9 at concrete inputs: a manual edit with the
default values, and an import of the all-empty sheet into the default
store. -/
theorem price_nonnegativity_amended_witness :
    NonnegPrices (setPrices 2000 25 950 1800)
    ∧ NonnegPrices (applyImport defaultPrices exEmptySheet) :=
  ⟨price_nonnegativity_amended.2.1 2000 25 950 1800
      (by norm_num) (by norm_num) (by norm_num) (by norm_num),
    price_nonnegativity_amended.2.2 defaultPrices exEmptySheet
      ⟨by decide, by decide, by decide, by decide⟩
      (by intro i hi v hv; simp [exEmptySheet] at hv)⟩

/-- Claim C10: a snapshot on date `d` leaves every row whose date differs
from `d` completely unchanged — same rows, same values, same relative
order — in both the append case and the overwrite case. -/
theorem snapshot_frame_property (log : List HistoryRow) (d : ℕ) (P : Prices) :
    (update_price_history log d P).filter (fun r => r.date != d) =
      log.filter (fun r => r.date != d) := by
  unfold update_price_history
  split
  · rw [List.filter_map]
    have h1 : List.filter ((fun r => r.date != d) ∘ fun r =>
        if r.date = d then ({ date := d, prices := P } : HistoryRow) else r) log =
        List.filter (fun r => r.date != d) log :=
      List.filter_congr (fun r _ => by simp [Function.comp, replace_date])
    rw [h1]
    refine (List.map_congr_left ?_).trans (List.map_id _)
    intro r hr
    have hmem := List.of_mem_filter hr
    simp at hmem
    simp [hmem]
  · rw [List.filter_append]
    simp

end MetalDashboard
